import Mathlib

/-!
Shallow embedding of the pagination-and-enrichment aggregator of
`app/services/freshworks_service.py` (class `FreshworksService`).

Conventions of the embedding:
* Python dict fields that may be absent are modelled as `Option`; `dict.get`
  with a default becomes `Option.getD`.
* Python dicts keyed by integers (the owner lookup, the stage table) are
  modelled as association lists with overwrite-on-insert, preserving dict
  semantics (unique keys, later assignment wins).
* Fallible Python code (a raised exception) becomes `Except`: the dict
  comprehension `user["id"]` can raise `KeyError`, the comparison
  `page >= total_pages` can raise `TypeError` when `total_pages` is not a
  number, and the underlying HTTP fetch can raise a transport error.
* The `while page <= max_pages` loop is embedded structurally with a fuel
  parameter: the loop performs at most `max_pages` iterations because `page`
  starts at 1 and increases by 1 each iteration, so fuel `max_pages` at
  `page = 1` (invariant `max_pages < fuel + page`) never cuts a run short;
  when fuel runs out the guard `page ≤ max_pages` is false anyway and both
  exits return the accumulator.
-/

/-- Scalar JSON-ish value found in pagination metadata: the code only
distinguishes numbers (comparable against `page`) from non-numbers, which make
`page >= total_pages` raise `TypeError`. -/
inductive JVal where
  | int : Int → JVal
  | str : String → JVal
deriving DecidableEq

/-- User record from the response's `users` list. `id` is `none` when the
record lacks the `"id"` key; `name` stands for the rest of the payload. -/
structure User where
  id : Option Int
  name : String
deriving DecidableEq

/-- Nested stage object written into a deal: `{"id": ..., "name": ...}`. -/
structure StageObj where
  id : Int
  name : String
deriving DecidableEq

/-- Deal record. `owner_id` / `deal_stage_id` are `none` when the key is
absent (or holds JSON null, which `deal.get` also reports and which is falsy
exactly like an absent key). `owner` and `deal_stage` are the two fields the
enrichment loop may write. -/
structure Deal where
  owner_id : Option Int
  deal_stage_id : Option Int
  owner : Option User
  deal_stage : Option StageObj
deriving DecidableEq

/-- Python dict lookup on an association list: first matching key wins
(keys stay unique because insertion overwrites in place). -/
def alGet (k : Int) : List (Int × α) → Option α
  | [] => none
  | (k₂, v) :: rest => if k₂ = k then some v else alGet k rest

/-- Python dict assignment on an association list: overwrite the existing
entry for the key in place, or append a fresh one. -/
def alInsert (k : Int) (v : α) : List (Int × α) → List (Int × α)
  | [] => [(k, v)]
  | (k₂, v₂) :: rest => if k₂ = k then (k, v) :: rest else (k₂, v₂) :: alInsert k v rest

/-- Static stage table of `_get_stage_name` (lines 196-207): the nine
hardcoded pipeline stages. -/
def stage_map : List (Int × String) :=
  [ (402001815652, "Closed Won"),
    (402001815651, "Closed Lost"),
    (402001821236, "Account Not Funded"),
    (402001842536, "Account Funded"),
    (402001815650, "KYC Created"),
    (402001815649, "Proposal Sent"),
    (402001815648, "Qualified"),
    (402001815647, "Contact Made"),
    (402001815646, "New Lead") ]

/-- Embeds `_get_stage_name` (line 191): `stage_map.get(stage_id, f"Stage
{stage_id}")` — dict get with a formatted-string default. -/
def _get_stage_name (stage_id : Int) : String :=
  (alGet stage_id stage_map).getD ("Stage " ++ toString stage_id)

/-- Embeds the dict comprehension `{user["id"]: user for user in users}`
(line 103), walking `users` left to right: the subscript `user["id"]` raises
`KeyError` when a user record lacks the key, and a later user with the same
id overwrites an earlier one. -/
def buildOwnerMapGo (acc : List (Int × User)) : List User → Except String (List (Int × User))
  | [] => Except.ok acc
  | u :: rest =>
    match u.id with
    | none => Except.error "KeyError: id"
    | some i => buildOwnerMapGo (alInsert i u acc) rest

/-- Owner lookup built fresh from one page's user list (line 103). -/
def buildOwnerMap (users : List User) : Except String (List (Int × User)) :=
  buildOwnerMapGo [] users

/-- Embeds lines 107-109: `owner_id = deal.get("owner_id"); if owner_id and
owner_id in owner_map: deal["owner"] = owner_map[owner_id]`. The Python
truthiness test `if owner_id` fails on `None` (absent key) and on `0`. -/
def attachOwner (owner_map : List (Int × User)) (deal : Deal) : Deal :=
  match deal.owner_id with
  | none => deal
  | some oid =>
    if oid = 0 then deal
    else
      match alGet oid owner_map with
      | some u => { deal with owner := some u }
      | none => deal

/-- Embeds lines 112-119: `stage_id = deal.get("deal_stage_id"); if stage_id:
deal["deal_stage"] = {"id": stage_id, "name": self._get_stage_name(stage_id)}`.
Again Python truthiness: absent key or `0` skips the assignment. -/
def attachStage (deal : Deal) : Deal :=
  match deal.deal_stage_id with
  | none => deal
  | some sid =>
    if sid = 0 then deal
    else { deal with deal_stage := some ⟨sid, _get_stage_name sid⟩ }

/-- One iteration of the enrichment loop body (lines 106-119): owner first,
then stage. -/
def enrichDeal (owner_map : List (Int × User)) (deal : Deal) : Deal :=
  attachStage (attachOwner owner_map deal)

/-- Response dict of one `get_all_deals` call, as the code reads it:
`users` and `deals` keys may be absent (`result.get(..., [])`), and
`total_pages` stands for `result.get("meta", {}).get("total_pages", 1)` —
`none` when either the `meta` dict or the `total_pages` key is missing. -/
structure DealsResult where
  users : Option (List User)
  deals : Option (List Deal)
  total_pages : Option JVal
deriving DecidableEq

/-- Post-fetch enrichment performed inside `get_all_deals` (lines 98-121):
build the owner map from `result.get("users", [])` (which can raise
`KeyError`), then mutate each deal of `result.get("deals", [])` in place and
return the whole result dict. An absent `deals` key stays absent. -/
def get_all_deals_post (r : DealsResult) : Except String DealsResult :=
  match buildOwnerMap (r.users.getD []) with
  | Except.error e => Except.error e
  | Except.ok owner_map =>
    Except.ok { r with deals := r.deals.map (fun ds => ds.map (enrichDeal owner_map)) }

/-- What one iteration of the pagination loops actually consumes from a fetch
result: the item list under the resource key (`contacts` or `deals`) and the
`total_pages` metadata. -/
structure Page (α : Type) where
  items : List α
  total_pages : Option JVal
deriving DecidableEq

/-- Errors a pagination loop can surface: an exception raised by the page
fetch, propagated as-is (its payload `ε` is carried unmodified), or the
`TypeError` Python raises when `page >= total_pages` compares an `int` with a
non-numeric value. -/
inductive CErr (ε : Type) where
  | fetch : ε → CErr ε
  | typeError : CErr ε
deriving DecidableEq

/-- Embeds the shared `while page <= max_pages` loop body of
`get_all_contacts_paginated` (lines 141-157) and `get_all_deals_paginated`
(lines 171-187); the two functions are textually identical up to the resource
key. `fuel` makes the recursion structural: under the invariant
`max_pages < fuel + page` it never cuts a run short, and when fuel is 0 the
guard `page ≤ max_pages` is false as well, so both exits return `acc`. -/
def collectGo (fetch : Nat → Except ε (Page α)) (max_pages : Nat) :
    Nat → Nat → List α → Except (CErr ε) (List α)
  | 0, _, acc => Except.ok acc
  | fuel + 1, page, acc =>
    if page ≤ max_pages then
      match fetch page with
      | Except.error e => Except.error (CErr.fetch e)
      | Except.ok pg =>
        if pg.items.isEmpty then Except.ok acc
        else
          match pg.total_pages.getD (JVal.int 1) with
          | JVal.int t =>
            if (page : Int) ≥ t then Except.ok (acc ++ pg.items)
            else collectGo fetch max_pages fuel (page + 1) (acc ++ pg.items)
          | JVal.str _ => Except.error CErr.typeError
    else Except.ok acc

/-- The PagedCollector: run the loop from `page = 1` with empty accumulator.
In the source `max_pages` defaults to 100. -/
def collect (fetch : Nat → Except ε (Page α)) (max_pages : Nat) :
    Except (CErr ε) (List α) :=
  collectGo fetch max_pages max_pages 1 []

/-- Response dict of one `get_all_contacts` call as the contacts loop reads
it: `result.get("contacts", [])` and the `meta`/`total_pages` chain. -/
structure ContactsResult (α : Type) where
  contacts : Option (List α)
  total_pages : Option JVal
deriving DecidableEq

/-- Projection a contacts-loop iteration applies to the fetched result:
`contacts = result.get("contacts", [])` (line 143) plus the metadata. -/
def contactsPage (r : ContactsResult α) : Page α :=
  ⟨r.contacts.getD [], r.total_pages⟩

/-- Embeds `get_all_contacts_paginated` (lines 131-159): drive the loop over
the raw page fetch (`get_all_contacts`, an HTTP call that may raise). -/
def get_all_contacts_paginated (fetch : Nat → Except ε (ContactsResult α))
    (max_pages : Nat) : Except (CErr ε) (List α) :=
  collect (fun p => (fetch p).map contactsPage) max_pages

/-- One page fetch as seen by the deals loop (line 172): `get_all_deals` is
the HTTP call (which may raise a transport error, `Sum.inl`) followed by the
in-place enrichment of lines 98-121 (whose `KeyError` is `Sum.inr`); the loop
then reads `result.get("deals", [])` from the enriched result (line 173). -/
def dealsFetch (fetch : Nat → Except ε DealsResult) (p : Nat) :
    Except (Sum ε String) (Page Deal) :=
  match fetch p with
  | Except.error e => Except.error (Sum.inl e)
  | Except.ok r =>
    match get_all_deals_post r with
    | Except.error k => Except.error (Sum.inr k)
    | Except.ok r₂ => Except.ok ⟨r₂.deals.getD [], r₂.total_pages⟩

/-- Embeds `get_all_deals_paginated` (lines 161-189). -/
def get_all_deals_paginated (fetch : Nat → Except ε DealsResult)
    (max_pages : Nat) : Except (CErr (Sum ε String)) (List Deal) :=
  collect (dealsFetch fetch) max_pages

/-- Concatenation of the item lists of `count` consecutive pages starting at
page `start`, in fetch order — the shape the accumulator takes. -/
def pagesConcat (pg : Nat → Page α) (start : Nat) : Nat → List α
  | 0 => []
  | count + 1 => (pg start).items ++ pagesConcat pg (start + 1) count

theorem attachStage_owner (d : Deal) : (attachStage d).owner = d.owner := by
  obtain ⟨o, s, ow, st⟩ := d
  cases s with
  | none => rfl
  | some sid => by_cases hs : sid = 0 <;> simp [attachStage, hs]

theorem attachStage_owner_id (d : Deal) : (attachStage d).owner_id = d.owner_id := by
  obtain ⟨o, s, ow, st⟩ := d
  cases s with
  | none => rfl
  | some sid => by_cases hs : sid = 0 <;> simp [attachStage, hs]

theorem attachOwner_deal_stage (m : List (Int × User)) (d : Deal) :
    (attachOwner m d).deal_stage = d.deal_stage := by
  obtain ⟨o, s, ow, st⟩ := d
  cases o with
  | none => rfl
  | some oid =>
    by_cases ho : oid = 0
    · simp [attachOwner, ho]
    · cases hget : alGet oid m <;> simp [attachOwner, ho, hget]

theorem attachOwner_deal_stage_id (m : List (Int × User)) (d : Deal) :
    (attachOwner m d).deal_stage_id = d.deal_stage_id := by
  obtain ⟨o, s, ow, st⟩ := d
  cases o with
  | none => rfl
  | some oid =>
    by_cases ho : oid = 0
    · simp [attachOwner, ho]
    · cases hget : alGet oid m <;> simp [attachOwner, ho, hget]

theorem enrichDeal_idem (m : List (Int × User)) (d : Deal) :
    enrichDeal m (enrichDeal m d) = enrichDeal m d := by
  obtain ⟨o, s, ow, st⟩ := d
  rcases o with _ | oid
  · rcases s with _ | sid
    · rfl
    · by_cases hs : sid = 0 <;> simp [enrichDeal, attachOwner, attachStage, hs]
  · by_cases ho : oid = 0
    · rcases s with _ | sid
      · simp [enrichDeal, attachOwner, attachStage, ho]
      · by_cases hs : sid = 0 <;> simp [enrichDeal, attachOwner, attachStage, ho, hs]
    · cases hget : alGet oid m with
      | none =>
        rcases s with _ | sid
        · simp [enrichDeal, attachOwner, attachStage, ho, hget]
        · by_cases hs : sid = 0 <;> simp [enrichDeal, attachOwner, attachStage, ho, hs, hget]
      | some u =>
        rcases s with _ | sid
        · simp [enrichDeal, attachOwner, attachStage, ho, hget]
        · by_cases hs : sid = 0 <;> simp [enrichDeal, attachOwner, attachStage, ho, hs, hget]

theorem listMap_idem {α : Type} {f : α → α} (hf : ∀ a, f (f a) = f a) (l : List α) :
    (l.map f).map f = l.map f := by
  induction l with
  | nil => rfl
  | cons a l ih => simp [hf, ih]

theorem alGet_alInsert_self {α : Type} (k : Int) (v : α) (l : List (Int × α)) :
    alGet k (alInsert k v l) = some v := by
  induction l with
  | nil => simp [alInsert, alGet]
  | cons p rest ih =>
    obtain ⟨k₂, v₂⟩ := p
    by_cases h : k₂ = k <;> simp [alInsert, alGet, h, ih]

theorem buildOwnerMapGo_append (acc : List (Int × User)) (xs ys : List User) :
    buildOwnerMapGo acc (xs ++ ys)
      = (buildOwnerMapGo acc xs).bind (fun m => buildOwnerMapGo m ys) := by
  induction xs generalizing acc with
  | nil => rfl
  | cons u xs ih =>
    cases hu : u.id with
    | none => simp [buildOwnerMapGo, hu, Except.bind]
    | some i => simp [buildOwnerMapGo, hu, ih]

theorem buildOwnerMapGo_ok (us : List User) :
    ∀ acc, (∀ u ∈ us, u.id ≠ none) → ∃ m, buildOwnerMapGo acc us = Except.ok m := by
  induction us with
  | nil => exact fun acc _ => ⟨acc, rfl⟩
  | cons u us ih =>
    intro acc h
    cases hu : u.id with
    | none => exact absurd hu (h u (by simp))
    | some i =>
      obtain ⟨m, hm⟩ := ih (alInsert i u acc) (fun v hv => h v (by simp [hv]))
      exact ⟨m, by simp [buildOwnerMapGo, hu, hm]⟩

theorem buildOwnerMapGo_err (us : List User) :
    ∀ acc, (∃ u ∈ us, u.id = none) →
      buildOwnerMapGo acc us = Except.error "KeyError: id" := by
  induction us with
  | nil => rintro acc ⟨u, h, -⟩; exact absurd h (List.not_mem_nil u)
  | cons u us ih =>
    rintro acc ⟨v, hv, hvid⟩
    cases hu : u.id with
    | none => simp [buildOwnerMapGo, hu]
    | some i =>
      rcases List.mem_cons.mp hv with rfl | hv₂
      · rw [hu] at hvid; exact absurd hvid (by simp)
      · simp [buildOwnerMapGo, hu, ih (alInsert i u acc) ⟨v, hv₂, hvid⟩]

theorem alGet_cases {α : Type} (l : List (Int × α)) (k : Int) :
    (∃ p ∈ l, p.1 = k ∧ alGet k l = some p.2)
      ∨ ((∀ p ∈ l, p.1 ≠ k) ∧ alGet k l = none) := by
  induction l with
  | nil => exact Or.inr ⟨by simp, rfl⟩
  | cons p rest ih =>
    obtain ⟨k₂, v⟩ := p
    by_cases h : k₂ = k
    · exact Or.inl ⟨(k₂, v), by simp, h, by simp [alGet, h]⟩
    · rcases ih with ⟨q, hq, hqk, hget⟩ | ⟨hall, hget⟩
      · exact Or.inl ⟨q, by simp [hq], hqk, by simp [alGet, h, hget]⟩
      · refine Or.inr ⟨?_, by simp [alGet, h, hget]⟩
        intro q hq
        rcases List.mem_cons.mp hq with rfl | hq₂
        · exact h
        · exact hall q hq₂

/-- C6: `_get_stage_name` is an exact-match lookup in the static 9-entry
stage table, and on a miss returns `"Stage {id}"` with the decimal
representation of the id; in particular it maps 402001815652 to
`"Closed Won"` and 999 to `"Stage 999"`. -/
theorem c6_stage_name :
    stage_map.length = 9
    ∧ (∀ i : Int,
        (∃ p ∈ stage_map, p.1 = i ∧ _get_stage_name i = p.2)
        ∨ ((∀ p ∈ stage_map, p.1 ≠ i) ∧ _get_stage_name i = "Stage " ++ toString i))
    ∧ _get_stage_name 402001815652 = "Closed Won"
    ∧ _get_stage_name 999 = "Stage 999" := by
  refine ⟨rfl, fun i => ?_, rfl, rfl⟩
  rcases alGet_cases stage_map i with ⟨p, hp, hpk, hget⟩ | ⟨hall, hget⟩
  · exact Or.inl ⟨p, hp, hpk, by simp [_get_stage_name, hget]⟩
  · exact Or.inr ⟨hall, by simp [_get_stage_name, hget]⟩

theorem c6_stage_name_witness : _get_stage_name 999 = "Stage 999" :=
  c6_stage_name.2.2.2

/-- C2 counterexample: a deal whose `deal_stage_id` key is present with the
falsy value 0 is left without a `deal_stage` field, although the claim says
any present value (including 0) gets one. -/
theorem c2_counterexample :
    (Deal.mk none (some 0) none none).deal_stage_id = some 0
    ∧ (enrichDeal [] (Deal.mk none (some 0) none none)).deal_stage = none
    ∧ (enrichDeal [] (Deal.mk none (some 0) none none)).deal_stage
        ≠ some ⟨0, _get_stage_name 0⟩ :=
  ⟨rfl, rfl, by decide⟩

/-- C2 amended: `deal_stage` is set to `{id, lookupStageName id}` exactly
when `deal_stage_id` is present and truthy (non-zero); when the field is
absent or 0 the `deal_stage` field is left unchanged. -/
theorem c2_stage_attachment (m : List (Int × User)) (d : Deal) :
    (∀ sid, d.deal_stage_id = some sid → sid ≠ 0 →
      (enrichDeal m d).deal_stage = some ⟨sid, _get_stage_name sid⟩)
    ∧ (d.deal_stage_id = none → (enrichDeal m d).deal_stage = d.deal_stage)
    ∧ (d.deal_stage_id = some 0 → (enrichDeal m d).deal_stage = d.deal_stage) := by
  refine ⟨?_, ?_, ?_⟩
  · intro sid hsid hs
    have h₁ : (attachOwner m d).deal_stage_id = some sid := by
      rw [attachOwner_deal_stage_id, hsid]
    simp [enrichDeal, attachStage, h₁, hs]
  · intro hsid
    have h₁ : (attachOwner m d).deal_stage_id = none := by
      rw [attachOwner_deal_stage_id, hsid]
    simp [enrichDeal, attachStage, h₁, attachOwner_deal_stage]
  · intro hsid
    have h₁ : (attachOwner m d).deal_stage_id = some 0 := by
      rw [attachOwner_deal_stage_id, hsid]
    simp [enrichDeal, attachStage, h₁, attachOwner_deal_stage]

theorem c2_stage_attachment_witness :
    (enrichDeal [] (Deal.mk none (some 999) none none)).deal_stage
        = some ⟨999, _get_stage_name 999⟩
    ∧ (enrichDeal [] (Deal.mk none none none none)).deal_stage = none :=
  ⟨(c2_stage_attachment [] (Deal.mk none (some 999) none none)).1 999 rfl (by decide),
   (c2_stage_attachment [] (Deal.mk none none none none)).2.1 rfl⟩

/-- C3 counterexample: `owner_id = 0` is present and 0 is a key of the owner
lookup built from the user list, yet the code's truthiness test skips the
attachment and `owner` stays unset. -/
theorem c3_counterexample :
    buildOwnerMap [User.mk (some 0) "A"] = Except.ok [(0, User.mk (some 0) "A")]
    ∧ (Deal.mk (some 0) none none none).owner_id = some 0
    ∧ (enrichDeal [(0, User.mk (some 0) "A")] (Deal.mk (some 0) none none none)).owner
        = none :=
  ⟨rfl, rfl, rfl⟩

/-- C3 amended: `owner` is set to the looked-up user record exactly when
`owner_id` is present, truthy (non-zero) and a key of the lookup; when it is
absent, 0, or misses the lookup, the `owner` field is left unchanged. In the
lookup the later user wins when two users share an id. -/
theorem c3_owner_attachment (m : List (Int × User)) (d : Deal) :
    (∀ oid u, d.owner_id = some oid → oid ≠ 0 → alGet oid m = some u →
      (enrichDeal m d).owner = some u)
    ∧ (d.owner_id = none → (enrichDeal m d).owner = d.owner)
    ∧ (d.owner_id = some 0 → (enrichDeal m d).owner = d.owner)
    ∧ (∀ oid, d.owner_id = some oid → alGet oid m = none →
      (enrichDeal m d).owner = d.owner)
    ∧ (∀ us u i mm, u.id = some i → buildOwnerMap (us ++ [u]) = Except.ok mm →
      alGet i mm = some u) := by
  refine ⟨?_, ?_, ?_, ?_, ?_⟩
  · intro oid u hoid ho hget
    rw [enrichDeal, attachStage_owner]
    simp [attachOwner, hoid, ho, hget]
  · intro hoid
    rw [enrichDeal, attachStage_owner]
    simp [attachOwner, hoid]
  · intro hoid
    rw [enrichDeal, attachStage_owner]
    simp [attachOwner, hoid]
  · intro oid hoid hget
    rw [enrichDeal, attachStage_owner]
    by_cases ho : oid = 0 <;> simp [attachOwner, hoid, ho, hget]
  · intro us u i mm hid hmm
    rw [buildOwnerMap, buildOwnerMapGo_append] at hmm
    cases hgo : buildOwnerMapGo [] us with
    | error e => rw [hgo] at hmm; exact absurd hmm (by simp [Except.bind])
    | ok acc =>
      rw [hgo] at hmm
      simp only [Except.bind] at hmm
      rw [buildOwnerMapGo, hid] at hmm
      cases hmm
      exact alGet_alInsert_self i u acc

theorem c3_owner_attachment_witness :
    (enrichDeal [(5, User.mk (some 5) "A")] (Deal.mk (some 5) none none none)).owner
        = some (User.mk (some 5) "A")
    ∧ alGet 5 [(5, User.mk (some 5) "A")] = some (User.mk (some 5) "A") :=
  ⟨(c3_owner_attachment [(5, User.mk (some 5) "A")] (Deal.mk (some 5) none none none)).1
      5 (User.mk (some 5) "A") rfl (by decide) rfl,
   (c3_owner_attachment [] (Deal.mk none none none none)).2.2.2.2
      [User.mk (some 3) "B"] (User.mk (some 5) "A") 5 [(3, User.mk (some 3) "B"), (5, User.mk (some 5) "A")] rfl rfl⟩

/-- C5 counterexample: the owner-lookup build reads each user's `id` by
direct subscription, so a user record lacking the field raises `KeyError`
instead of completing with a default. -/
theorem c5_counterexample :
    buildOwnerMap [User.mk none "B"] = Except.error "KeyError: id" := rfl

/-- C5 amended: the deal and result field reads (`owner_id`,
`deal_stage_id`, `users`, `deals`) are get-with-default and never fail — once
the owner lookup is built, the enrichment succeeds on every deal list — but
the `id` read of each user while building the owner lookup is a direct
subscription: it raises `KeyError` exactly when some user record lacks the
field. -/
theorem c5_field_reads :
    (∀ us : List User, (∀ u ∈ us, u.id ≠ none) →
      ∃ m, buildOwnerMap us = Except.ok m)
    ∧ (∀ us : List User, (∃ u ∈ us, u.id = none) →
      buildOwnerMap us = Except.error "KeyError: id")
    ∧ (∀ r : DealsResult, ∀ m, buildOwnerMap (r.users.getD []) = Except.ok m →
      get_all_deals_post r
        = Except.ok { r with deals := r.deals.map (fun ds => ds.map (enrichDeal m)) }) := by
  refine ⟨fun us h => buildOwnerMapGo_ok us [] h,
          fun us h => buildOwnerMapGo_err us [] h,
          fun r m h => ?_⟩
  rw [get_all_deals_post, h]

theorem c5_field_reads_witness :
    (∃ m, buildOwnerMap [User.mk (some 1) "A"] = Except.ok m)
    ∧ buildOwnerMap [User.mk (some 1) "A", User.mk none "B"]
        = Except.error "KeyError: id" :=
  ⟨c5_field_reads.1 [User.mk (some 1) "A"] (by decide),
   c5_field_reads.2.1 [User.mk (some 1) "A", User.mk none "B"]
      ⟨User.mk none "B", by decide, rfl⟩⟩

/-- C10: deal enrichment is idempotent — re-running the enrichment of
`get_all_deals` on an already-enriched result (same user list) returns the
very same result, because `owner_id` and `deal_stage_id` are never modified
and `owner` / `deal_stage` are overwritten with the same values. -/
theorem c10_enrich_idempotent (r r₂ : DealsResult)
    (h : get_all_deals_post r = Except.ok r₂) :
    get_all_deals_post r₂ = Except.ok r₂ := by
  rw [get_all_deals_post] at h
  cases hb : buildOwnerMap (r.users.getD []) with
  | error e => rw [hb] at h; exact absurd h (by simp)
  | ok m =>
    rw [hb] at h
    cases h
    have hu : ({ r with deals := r.deals.map (fun ds => ds.map (enrichDeal m)) } : DealsResult).users = r.users := rfl
    rw [get_all_deals_post]
    simp only [hu, hb]
    cases hd : r.deals with
    | none => simp [hd]
    | some ds => simp [hd, listMap_idem (enrichDeal_idem m)]

theorem c10_enrich_idempotent_witness :
    get_all_deals_post
        (DealsResult.mk (some [User.mk (some 5) "A"])
          (some [Deal.mk (some 5) (some 999) (some (User.mk (some 5) "A"))
            (some (StageObj.mk 999 "Stage 999"))]) none)
      = Except.ok
        (DealsResult.mk (some [User.mk (some 5) "A"])
          (some [Deal.mk (some 5) (some 999) (some (User.mk (some 5) "A"))
            (some (StageObj.mk 999 "Stage 999"))]) none) :=
  c10_enrich_idempotent
    (DealsResult.mk (some [User.mk (some 5) "A"])
      (some [Deal.mk (some 5) (some 999) none none]) none)
    (DealsResult.mk (some [User.mk (some 5) "A"])
      (some [Deal.mk (some 5) (some 999) (some (User.mk (some 5) "A"))
        (some (StageObj.mk 999 "Stage 999"))]) none)
    rfl

theorem collectGo_stop_high (fetch : Nat → Except ε (Page α)) (m fuel page : Nat)
    (acc : List α) (h : m < page) :
    collectGo fetch m fuel page acc = Except.ok acc := by
  cases fuel with
  | zero => rfl
  | succ f => simp [collectGo, Nat.not_le.mpr h]

theorem collectGo_fuel_congr (fetch : Nat → Except ε (Page α)) (m : Nat) :
    ∀ fuel fuel₂ page acc, m < fuel + page → m < fuel₂ + page →
      collectGo fetch m fuel page acc = collectGo fetch m fuel₂ page acc := by
  intro fuel
  induction fuel with
  | zero =>
    intro fuel₂ page acc h₁ h₂
    rw [collectGo, collectGo_stop_high fetch m fuel₂ page acc (by omega)]
  | succ f ih =>
    intro fuel₂ page acc h₁ h₂
    cases fuel₂ with
    | zero =>
      rw [collectGo, collectGo_stop_high fetch m (f + 1) page acc (by omega)]
    | succ f₂ =>
      simp only [collectGo]
      by_cases hp : page ≤ m
      · simp only [hp, if_true]
        cases fetch page with
        | error e => rfl
        | ok pg =>
          simp only []
          by_cases he : pg.items.isEmpty
          · simp [he]
          · simp only [he, if_false, Bool.false_eq_true]
            cases pg.total_pages.getD (JVal.int 1) with
            | str s => rfl
            | int t =>
              simp only []
              by_cases hge : (page : Int) ≥ t
              · simp [hge]
              · simp only [hge, if_false]
                exact ih f₂ (page + 1) (acc ++ pg.items) (by omega) (by omega)
      · simp [hp]

theorem pagesConcat_snoc (pg : Nat → Page α) :
    ∀ count start, pagesConcat pg start (count + 1)
      = pagesConcat pg start count ++ (pg (start + count)).items := by
  intro count
  induction count with
  | zero => intro start; simp [pagesConcat]
  | succ c ih =>
    intro start
    rw [pagesConcat, ih (start + 1), pagesConcat]
    simp [List.append_assoc]
    congr 2
    omega

theorem collectGo_walk (fetch : Nat → Except ε (Page α)) (m : Nat) (pg : Nat → Page α)
    (k : Nat) (hkm : k ≤ m)
    (hfetch : ∀ p, 1 ≤ p → p < k → fetch p = Except.ok (pg p))
    (hcont : ∀ p, 1 ≤ p → p < k →
      (pg p).items ≠ [] ∧ ∃ t : Int, (pg p).total_pages = some (JVal.int t) ∧ (p : Int) < t) :
    ∀ fuel page acc, 1 ≤ page → page ≤ k → m < fuel + page →
      collectGo fetch m fuel page acc
        = collectGo fetch m m k (acc ++ pagesConcat pg page (k - page)) := by
  intro fuel
  induction fuel with
  | zero => intro page acc h₁ h₂ h₃; omega
  | succ f ih =>
    intro page acc h₁ h₂ h₃
    by_cases hpk : page = k
    · subst hpk
      rw [Nat.sub_self, pagesConcat, List.append_nil]
      exact collectGo_fuel_congr fetch m (f + 1) m page acc h₃ (by omega)
    · have hlt : page < k := by omega
      obtain ⟨hne, t, htp, ht⟩ := hcont page h₁ hlt
      have hpm : page ≤ m := by omega
      simp only [collectGo, hpm, if_true]
      rw [hfetch page h₁ hlt]
      have hie : (pg page).items.isEmpty = false := by
        simpa [List.isEmpty_iff] using hne
      simp only [hie, Bool.false_eq_true, if_false]
      rw [htp]
      simp only [Option.getD_some]
      have hnge : ¬ ((page : Int) ≥ t) := by omega
      simp only [hnge, if_false]
      rw [ih (page + 1) (acc ++ (pg page).items) (by omega) (by omega) (by omega)]
      have hk : k - page = (k - (page + 1)) + 1 := by omega
      rw [hk, pagesConcat, List.append_assoc]

theorem collect_stepped (fetch : Nat → Except ε (Page α)) (m : Nat) (pg : Nat → Page α)
    (k : Nat) (h1k : 1 ≤ k) (hkm : k ≤ m)
    (hfetch : ∀ p, 1 ≤ p → p < k → fetch p = Except.ok (pg p))
    (hcont : ∀ p, 1 ≤ p → p < k →
      (pg p).items ≠ [] ∧ ∃ t : Int, (pg p).total_pages = some (JVal.int t) ∧ (p : Int) < t) :
    collect fetch m = collectGo fetch m m k (pagesConcat pg 1 (k - 1)) := by
  rw [collect, collectGo_walk fetch m pg k hkm hfetch hcont m 1 [] (le_refl 1) h1k (by omega)]
  simp

theorem collect_run (fetch : Nat → Except ε (Page α)) (m : Nat) (pg : Nat → Page α)
    (n : Nat) (h1n : 1 ≤ n) (hnm : n ≤ m)
    (hfetch : ∀ p, 1 ≤ p → p ≤ n → fetch p = Except.ok (pg p))
    (hcont : ∀ p, 1 ≤ p → p < n →
      (pg p).items ≠ [] ∧ ∃ t : Int, (pg p).total_pages = some (JVal.int t) ∧ (p : Int) < t)
    (hstop : (pg n).items = []
      ∨ (pg n).total_pages = none
      ∨ (n = m ∧ ∀ s, (pg n).total_pages ≠ some (JVal.str s))
      ∨ (∃ t : Int, (pg n).total_pages = some (JVal.int t) ∧ t ≤ (n : Int))) :
    collect fetch m = Except.ok (pagesConcat pg 1 n) := by
  rw [collect_stepped fetch m pg n h1n hnm (fun p h₁ h₂ => hfetch p h₁ (Nat.le_of_lt h₂)) hcont]
  have hconc : pagesConcat pg 1 n = pagesConcat pg 1 (n - 1) ++ (pg (1 + (n - 1))).items := by
    conv_lhs => rw [show n = (n - 1) + 1 by omega]
    exact pagesConcat_snoc pg (n - 1) 1
  rw [show 1 + (n - 1) = n by omega] at hconc
  obtain ⟨m₂, rfl⟩ : ∃ m₂, m = m₂ + 1 := ⟨m - 1, by omega⟩
  have hnm₂ : n ≤ m₂ + 1 := hnm
  simp only [collectGo, hnm₂, if_true]
  rw [hfetch n h1n (le_refl n)]
  by_cases hemp : (pg n).items.isEmpty
  · simp only [hemp, if_true]
    rw [hconc, List.isEmpty_iff.mp hemp, List.append_nil]
  · simp only [hemp, Bool.false_eq_true, if_false]
    rcases hstop with hstop | hstop | ⟨hnm₃, hnum⟩ | ⟨t, htp, ht⟩
    · exact absurd (List.isEmpty_iff.mpr hstop) hemp
    · rw [hstop]
      simp only [Option.getD_none]
      have : (n : Int) ≥ 1 := by omega
      simp [this, hconc]
    · cases htp : (pg n).total_pages with
      | none =>
        simp only [Option.getD_none]
        have : (n : Int) ≥ 1 := by omega
        simp [this, hconc]
      | some v =>
        cases v with
        | str s => exact absurd htp (hnum s)
        | int t =>
          simp only [Option.getD_some]
          by_cases hge : (n : Int) ≥ t
          · simp [hge, hconc]
          · simp only [hge, if_false]
            rw [collectGo_stop_high fetch (m₂ + 1) m₂ (n + 1) _ (by omega), hconc]
    · rw [htp]
      simp only [Option.getD_some]
      have hge : (n : Int) ≥ t := ht
      simp [hge, hconc]

theorem collect_error (fetch : Nat → Except ε (Page α)) (m : Nat) (pg : Nat → Page α)
    (k : Nat) (e : ε) (h1k : 1 ≤ k) (hkm : k ≤ m)
    (hfetch : ∀ p, 1 ≤ p → p < k → fetch p = Except.ok (pg p))
    (hcont : ∀ p, 1 ≤ p → p < k →
      (pg p).items ≠ [] ∧ ∃ t : Int, (pg p).total_pages = some (JVal.int t) ∧ (p : Int) < t)
    (hke : fetch k = Except.error e) :
    collect fetch m = Except.error (CErr.fetch e) := by
  rw [collect_stepped fetch m pg k h1k hkm hfetch hcont]
  obtain ⟨m₂, rfl⟩ : ∃ m₂, m = m₂ + 1 := ⟨m - 1, by omega⟩
  have hkm₂ : k ≤ m₂ + 1 := hkm
  simp only [collectGo, hkm₂, if_true]
  rw [hke]

/-- C1: when the upstream pages carry a consistent `total_pages = n` within
the page budget and every page before the last is non-empty, both paginated
collectors return exactly the concatenation of the fetched pages' item lists
in fetch order (page 1 first, each page's internal order preserved); the
concatenation keeps duplicates, so items repeated across pages propagate. -/
theorem c1_pagination_concat {ε ε₂ α : Type}
    (cfetch : Nat → Except ε (ContactsResult α)) (dfetch : Nat → Except ε₂ DealsResult)
    (cpg : Nat → Page α) (dpg : Nat → Page Deal) (n m : Nat)
    (h1n : 1 ≤ n) (hnm : n ≤ m)
    (hcf : ∀ p, 1 ≤ p → p ≤ n → (cfetch p).map contactsPage = Except.ok (cpg p))
    (hdf : ∀ p, 1 ≤ p → p ≤ n → dealsFetch dfetch p = Except.ok (dpg p))
    (hctp : ∀ p, 1 ≤ p → p ≤ n → (cpg p).total_pages = some (JVal.int n))
    (hdtp : ∀ p, 1 ≤ p → p ≤ n → (dpg p).total_pages = some (JVal.int n))
    (hcne : ∀ p, 1 ≤ p → p < n → (cpg p).items ≠ [])
    (hdne : ∀ p, 1 ≤ p → p < n → (dpg p).items ≠ []) :
    get_all_contacts_paginated cfetch m = Except.ok (pagesConcat cpg 1 n)
    ∧ get_all_deals_paginated dfetch m = Except.ok (pagesConcat dpg 1 n) := by
  constructor
  · rw [get_all_contacts_paginated]
    exact collect_run _ m cpg n h1n hnm hcf
      (fun p h₁ h₂ => ⟨hcne p h₁ h₂, n, hctp p h₁ (Nat.le_of_lt h₂), by exact_mod_cast h₂⟩)
      (Or.inr (Or.inr (Or.inr ⟨n, hctp n h1n (le_refl n), le_refl _⟩)))
  · rw [get_all_deals_paginated]
    exact collect_run _ m dpg n h1n hnm hdf
      (fun p h₁ h₂ => ⟨hdne p h₁ h₂, n, hdtp p h₁ (Nat.le_of_lt h₂), by exact_mod_cast h₂⟩)
      (Or.inr (Or.inr (Or.inr ⟨n, hdtp n h1n (le_refl n), le_refl _⟩)))

theorem c1_pagination_concat_witness :
    get_all_contacts_paginated
        (fun p => (Except.ok (if p = 1 then ⟨some [10, 11], some (JVal.int 2)⟩
          else ⟨some [11], some (JVal.int 2)⟩) : Except Unit (ContactsResult Nat))) 100
      = Except.ok (pagesConcat
          (fun p => if p = 1 then ⟨[10, 11], some (JVal.int 2)⟩ else ⟨[11], some (JVal.int 2)⟩) 1 2)
    ∧ get_all_deals_paginated
        (fun _ => (Except.ok ⟨none, some [Deal.mk none none none none], some (JVal.int 2)⟩
          : Except Unit DealsResult)) 100
      = Except.ok (pagesConcat
          (fun _ => ⟨[Deal.mk none none none none], some (JVal.int 2)⟩) 1 2) := by
  refine c1_pagination_concat _ _ _ _ 2 100 (by omega) (by omega)
    ?_ ?_ ?_ ?_ ?_ ?_ <;> intro p h₁ h₂ <;> interval_cases p <;> first | rfl | decide

/-- C4 counterexample: a page whose `total_pages` metadata is the non-numeric
value `"two"` makes the collection abort with a `TypeError` (the comparison
`page >= total_pages` between an `int` and a `str`), instead of being treated
as the default 1; so malformed metadata IS an error and DOES abort. -/
theorem c4_counterexample :
    get_all_contacts_paginated
        (fun _ => (Except.ok ⟨some [7], some (JVal.str "two")⟩
          : Except Unit (ContactsResult Nat))) 5
      = Except.error CErr.typeError := rfl

/-- C4 amended: metadata *missing* `total_pages` is defaulted to 1 and stops
the collection after the current page (page ≥ 1 always holds); but a
*non-numeric* `total_pages` is not defaulted — the comparison with `page`
raises a `TypeError` that aborts the collection with no result. -/
theorem c4_metadata_default (fetch : Nat → Except ε (Page α)) (m : Nat)
    (pg : Nat → Page α) (k : Nat) (h1k : 1 ≤ k) (hkm : k ≤ m)
    (hfetch : ∀ p, 1 ≤ p → p ≤ k → fetch p = Except.ok (pg p))
    (hcont : ∀ p, 1 ≤ p → p < k →
      (pg p).items ≠ [] ∧ ∃ t : Int, (pg p).total_pages = some (JVal.int t) ∧ (p : Int) < t)
    (hne : (pg k).items ≠ []) :
    ((pg k).total_pages = none → collect fetch m = Except.ok (pagesConcat pg 1 k))
    ∧ (∀ s, (pg k).total_pages = some (JVal.str s) →
      collect fetch m = Except.error CErr.typeError) := by
  constructor
  · intro hnone
    exact collect_run fetch m pg k h1k hkm hfetch hcont (Or.inr (Or.inl hnone))
  · intro s hs
    rw [collect_stepped fetch m pg k h1k hkm
      (fun p h₁ h₂ => hfetch p h₁ (Nat.le_of_lt h₂)) hcont]
    obtain ⟨m₂, rfl⟩ : ∃ m₂, m = m₂ + 1 := ⟨m - 1, by omega⟩
    have hkm₂ : k ≤ m₂ + 1 := hkm
    simp only [collectGo, hkm₂, if_true]
    rw [hfetch k h1k (le_refl k)]
    have hie : (pg k).items.isEmpty = false := by simpa [List.isEmpty_iff] using hne
    simp [hie, hs]

theorem c4_metadata_default_witness :
    collect (fun _ => (Except.ok ⟨[5], none⟩ : Except Unit (Page Nat))) 3
      = Except.ok (pagesConcat (fun _ => (⟨[5], none⟩ : Page Nat)) 1 1)
    ∧ collect (fun _ => (Except.ok ⟨[5], some (JVal.str "x")⟩ : Except Unit (Page Nat))) 3
      = Except.error CErr.typeError :=
  ⟨(c4_metadata_default _ 3 (fun _ => (⟨[5], none⟩ : Page Nat)) 1 (by omega) (by omega)
      (fun p h₁ h₂ => rfl) (fun p h₁ h₂ => by omega) (by decide)).1 rfl,
   (c4_metadata_default _ 3 (fun _ => (⟨[5], some (JVal.str "x")⟩ : Page Nat)) 1 (by omega)
      (by omega) (fun p h₁ h₂ => rfl) (fun p h₁ h₂ => by omega) (by decide)).2 "x" rfl⟩

/-- C7: a page reporting `total_pages ≤ 0` stops the collection after that
page (`page ≥ total_pages` already holds), and hitting `max_pages` before
natural termination stops silently with the partial data collected so far. -/
theorem c7_stop_conditions (fetch : Nat → Except ε (Page α)) (m : Nat)
    (pg : Nat → Page α) (n : Nat) (h1n : 1 ≤ n) (hnm : n ≤ m)
    (hfetch : ∀ p, 1 ≤ p → p ≤ n → fetch p = Except.ok (pg p))
    (hcont : ∀ p, 1 ≤ p → p < n →
      (pg p).items ≠ [] ∧ ∃ t : Int, (pg p).total_pages = some (JVal.int t) ∧ (p : Int) < t) :
    (∀ t : Int, (pg n).total_pages = some (JVal.int t) → t ≤ 0 →
      collect fetch m = Except.ok (pagesConcat pg 1 n))
    ∧ (∀ t : Int, n = m → (pg n).total_pages = some (JVal.int t) → (m : Int) < t →
      collect fetch m = Except.ok (pagesConcat pg 1 n)) := by
  constructor
  · intro t htp ht
    exact collect_run fetch m pg n h1n hnm hfetch hcont
      (Or.inr (Or.inr (Or.inr ⟨t, htp, by omega⟩)))
  · intro t hn htp ht
    refine collect_run fetch m pg n h1n hnm hfetch hcont
      (Or.inr (Or.inr (Or.inl ⟨hn, fun s hs => ?_⟩)))
    rw [htp] at hs
    cases hs

theorem c7_stop_conditions_witness :
    collect (fun _ => (Except.ok ⟨[4], some (JVal.int 0)⟩ : Except Unit (Page Nat))) 3
      = Except.ok (pagesConcat (fun _ => (⟨[4], some (JVal.int 0)⟩ : Page Nat)) 1 1)
    ∧ collect (fun p => (Except.ok ⟨[p], some (JVal.int 9)⟩ : Except Unit (Page Nat))) 2
      = Except.ok (pagesConcat (fun p => (⟨[p], some (JVal.int 9)⟩ : Page Nat)) 1 2) :=
  ⟨(c7_stop_conditions _ 3 _ 1 (by omega) (by omega) (fun p h₁ h₂ => rfl)
      (fun p h₁ h₂ => by omega)).1 0 rfl (by omega),
   (c7_stop_conditions _ 2 _ 2 (by omega) (by omega) (fun p h₁ h₂ => rfl)
      (fun p h₁ h₂ => ⟨by simp, 9, rfl, by omega⟩)).2 9 rfl rfl
      (by omega)⟩

/-- C8: an empty page 1 makes both collectors return the empty list; the
conclusion holds for every fetch function regardless of its behaviour at
page 2 and beyond (even one that would fail there) and regardless of the
pagination metadata on the empty page — the empty-items check runs before
the metadata is read, so an empty page is terminal unconditionally. -/
theorem c8_empty_page_terminal {ε ε₂ α : Type}
    (cfetch : Nat → Except ε (ContactsResult α)) (dfetch : Nat → Except ε₂ DealsResult)
    (m : Nat) (rc : ContactsResult α) (pd : Page Deal) (hm : 1 ≤ m)
    (hcf : cfetch 1 = Except.ok rc) (hrc : rc.contacts.getD [] = [])
    (hdf : dealsFetch dfetch 1 = Except.ok pd) (hpd : pd.items = []) :
    get_all_contacts_paginated cfetch m = Except.ok []
    ∧ get_all_deals_paginated dfetch m = Except.ok [] := by
  have hconc : ∀ (pg : Nat → Page α), (pg 1).items = [] → pagesConcat pg 1 1 = [] := by
    intro pg h
    simp [pagesConcat, h]
  constructor
  · rw [get_all_contacts_paginated]
    have h := collect_run (fun p => (cfetch p).map contactsPage) m
      (fun _ => contactsPage rc) 1 (le_refl 1) hm
      (fun p h₁ h₂ => by
        have hp : p = 1 := by omega
        subst hp
        show Except.map contactsPage (cfetch 1) = _
        rw [hcf]
        rfl)
      (fun p h₁ h₂ => by omega)
      (Or.inl (by simpa [contactsPage] using hrc))
    rw [h]
    simp [pagesConcat, contactsPage, hrc]
  · rw [get_all_deals_paginated]
    have h := collect_run (dealsFetch dfetch) m (fun _ => pd) 1 (le_refl 1) hm
      (fun p h₁ h₂ => by
        have : p = 1 := by omega
        subst this
        exact hdf)
      (fun p h₁ h₂ => by omega)
      (Or.inl hpd)
    rw [h]
    simp [pagesConcat, hpd]

theorem c8_empty_page_terminal_witness :
    get_all_contacts_paginated
        (fun p => if p = 1
          then (Except.ok ⟨some [], some (JVal.str "junk")⟩ : Except Unit (ContactsResult Nat))
          else Except.error ())
        5
      = Except.ok []
    ∧ get_all_deals_paginated
        (fun p => if p = 1
          then (Except.ok ⟨none, some [], some (JVal.str "junk")⟩ : Except Unit DealsResult)
          else Except.error ())
        5
      = Except.ok [] :=
  c8_empty_page_terminal _ _ 5 ⟨some [], some (JVal.str "junk")⟩
    ⟨[], some (JVal.str "junk")⟩ (by omega) rfl rfl rfl rfl

/-- C9: a failure of the underlying page fetch propagates to the caller with
its payload unmodified (`CErr.fetch` is the embedding's typed channel for the
Python exception re-raised as-is), the collection aborts, and the items
accumulated before the failure are discarded — the result is the error, not a
partial list. -/
theorem c9_fetch_error_propagates {ε ε₂ α : Type}
    (cfetch : Nat → Except ε (ContactsResult α)) (dfetch : Nat → Except ε₂ DealsResult)
    (m k k₂ : Nat) (cpg : Nat → Page α) (dpg : Nat → Page Deal) (e : ε) (e₂ : ε₂)
    (h1k : 1 ≤ k) (hkm : k ≤ m) (h1k₂ : 1 ≤ k₂) (hk₂m : k₂ ≤ m)
    (hcf : ∀ p, 1 ≤ p → p < k → (cfetch p).map contactsPage = Except.ok (cpg p))
    (hccont : ∀ p, 1 ≤ p → p < k →
      (cpg p).items ≠ [] ∧ ∃ t : Int, (cpg p).total_pages = some (JVal.int t) ∧ (p : Int) < t)
    (hce : cfetch k = Except.error e)
    (hdf : ∀ p, 1 ≤ p → p < k₂ → dealsFetch dfetch p = Except.ok (dpg p))
    (hdcont : ∀ p, 1 ≤ p → p < k₂ →
      (dpg p).items ≠ [] ∧ ∃ t : Int, (dpg p).total_pages = some (JVal.int t) ∧ (p : Int) < t)
    (hde : dfetch k₂ = Except.error e₂) :
    get_all_contacts_paginated cfetch m = Except.error (CErr.fetch e)
    ∧ get_all_deals_paginated dfetch m = Except.error (CErr.fetch (Sum.inl e₂)) := by
  constructor
  · rw [get_all_contacts_paginated]
    exact collect_error _ m cpg k e h1k hkm hcf hccont (by rw [hce]; rfl)
  · rw [get_all_deals_paginated]
    exact collect_error _ m dpg k₂ (Sum.inl e₂) h1k₂ hk₂m hdf hdcont
      (by rw [dealsFetch, hde])

theorem c9_fetch_error_propagates_witness :
    get_all_contacts_paginated
        (fun p => if p = 2 then Except.error 42
          else (Except.ok ⟨some [p], some (JVal.int 5)⟩ : Except Nat (ContactsResult Nat))) 9
      = Except.error (CErr.fetch 42)
    ∧ get_all_deals_paginated
        (fun _ => (Except.error 7 : Except Nat DealsResult)) 9
      = Except.error (CErr.fetch (Sum.inl 7)) :=
  c9_fetch_error_propagates _ _ 9 2 1
    (fun p => ⟨[p], some (JVal.int 5)⟩) (fun _ => ⟨[], none⟩) 42 7
    (by omega) (by omega) (by omega) (by omega)
    (fun p h₁ h₂ => by interval_cases p; rfl)
    (fun p h₁ h₂ => by interval_cases p; exact ⟨by simp, 5, rfl, by omega⟩)
    rfl
    (fun p h₁ h₂ => by omega)
    (fun p h₁ h₂ => by omega)
    rfl
